import Mathlib

/-!
Verification of the pykythe two-stage semantic pipeline (cook, then
FQN-resolve, then emit anchors) against its natural-language
specification.  The definitions below are a shallow embedding of the
Python sources:

  * src/pykythe/ast.py          (File.astn_to_range, make_file)
  * src/pykythe/ast_cooked.py   (cooked nodes, FqnCtx, fqns, anchors)
  * src/pykythe/ast_raw.py      (Ctx, cvt_token_name, cvt_global_stmt)

Modelling conventions:

  * Python dicts used as ordered sets or ordered maps become
    association lists (List (String x String) or List String); dict
    assignment d[k] = v keeps the original position of an existing key
    and appends a new key at the end, exactly as an OrderedDict does.
  * The ChainMap of scope frames becomes List Frame, innermost frame
    first.  Every write in the source goes to the innermost map of the
    ChainMap held by the context performing the write, so the state is
    threaded as that list; entering a scope conses a new frame,
    leaving a scope drops the head (the source discards the derived
    context object while the outer frames are shared, unmutated).
  * Sequence-valued node fields (statement lists, trailer lists,
    GenericNode items) are encoded with a binary Node.seq constructor;
    the source resolves such lists left to right and concatenates
    their anchors, which is exactly what seq does.
  * Python exceptions (the assert statements in the anchors methods,
    the KeyError of a missing line number) become Option, none meaning
    the exception.
-/

namespace PyKythe

/-- A lib2to3 leaf token as the cooked tree stores it: literal text plus
line number and column (ast_cooked keeps the pytree.Leaf itself; only
value, lineno and column are ever read). -/
structure Leaf where
  value : String
  lineno : Nat
  col : Nat
deriving DecidableEq, Repr

/-- ast.Astn: leaf contents with absolute offsets, as produced by
File.astn_to_range. -/
structure Astn where
  value : String
  start : Nat
  stop : Nat
deriving DecidableEq, Repr

/-- ast.File, reduced to the fields astn_to_range reads: the
line number to offset table built by make_file. -/
structure File where
  lineOffsets : List (Nat × Nat)
deriving Repr

/-- File.astn_to_range: offset = line_offsets[lineno] + column, and the
span is (offset, offset + len(value)).  A missing line number is a
KeyError, modelled as none. -/
def File.astn_to_range (f : File) (astn : Leaf) : Option Astn :=
  match f.lineOffsets.lookup astn.lineno with
  | none => none
  | some lineOff =>
      some { value := astn.value
             start := lineOff + astn.col
             stop := lineOff + astn.col + astn.value.length }

/-- The loop body of ast.make_file: enumerate the decoded characters,
recording offset + 1 for the line after each newline.  The offsets are
indices into the decoded character stream (this is what the source
computes; whether that matches byte offsets is claim C9). -/
def makeFileOffsetsAux : List Char → Nat → Nat → List (Nat × Nat)
  | [], _, _ => []
  | c :: rest, offset, lineno =>
      if c = '\n' then
        (lineno + 1, offset + 1) :: makeFileOffsetsAux rest (offset + 1) (lineno + 1)
      else
        makeFileOffsetsAux rest (offset + 1) lineno

/-- ast.make_file: line_offsets starts as the singleton 1 -> 0 and is
extended by the enumeration loop over the decoded content. -/
def make_file (content : List Char) : File :=
  { lineOffsets := (1, 0) :: makeFileOffsetsAux content 0 1 }

/-- Byte offset of character position i of a decoded text: total UTF-8
width of the characters before it.  This is not part of the source; it
is the reference measure for claim C9 (the spec contract says anchor
offsets are byte offsets into the raw source byte stream). -/
def byteOffset (content : List Char) (charOffset : Nat) : Nat :=
  ((content.take charOffset).map Char.utf8Size).sum

/-! ## Scope frames (the ChainMap of FqnCtx.bindings) -/

/-- One scope frame: an insertion-ordered mapping from name to FQN
(one OrderedDict of the ChainMap). -/
abbrev Frame := List (String × String)

/-- Dict read: first entry with the key. -/
def frameLookup : Frame → String → Option String
  | [], _ => none
  | (k, v) :: rest, n => if k = n then some v else frameLookup rest n

/-- Dict write d[k] = v: replace in place if the key is present
(keeping its position), else append at the end. -/
def frameInsert : Frame → String → String → Frame
  | [], n, v => [(n, v)]
  | (k, w) :: rest, n, v =>
      if k = n then (k, v) :: rest else (k, w) :: frameInsert rest n v

/-- Dict bulk write d.update(pairs), left to right. -/
def frameUpdate (f : Frame) (pairs : List (String × String)) : Frame :=
  pairs.foldl (fun acc p => frameInsert acc p.1 p.2) f

/-- ChainMap read: search the frames innermost first, returning the
first hit. -/
def chainLookup : List Frame → String → Option String
  | [], _ => none
  | f :: rest, n =>
      match frameLookup f n with
      | some v => some v
      | none => chainLookup rest n

/-- ChainMap write: always writes the innermost map.  (A ChainMap
always holds at least one map, so the nil case is unreachable.) -/
def chainInsert : List Frame → String → String → List Frame
  | [], n, v => [[(n, v)]]
  | f :: rest, n, v => frameInsert f n v :: rest

/-- ChainMap bulk write on the innermost map (ctx.bindings.update). -/
def chainUpdate : List Frame → List (String × String) → List Frame
  | [], pairs => [frameUpdate [] pairs]
  | f :: rest, pairs => frameUpdate f pairs :: rest

/-! ## The cooked tree (ast_cooked.py) -/

/-- FqnCtx of ast_cooked.py: the dot-terminated FQN of the current
scope, the scope-frame chain (innermost first) and the Python major
version discriminating the two comprehension dialects. -/
structure FqnCtx where
  fqnDot : String
  bindings : List Frame
  pythonVersion : Nat
deriving Repr

/-- The cooked nodes that the examined claims exercise, as one closed
union.  Node.seq encodes the sequence-valued fields (AstListNode,
GenericNode, statement lists, trailer lists); Node.omitted is
OMITTED_NODE.  Scope-introducing nodes carry their cook-time
scope_bindings (insertion-ordered name set, value ignored). -/
inductive Node where
  | omitted
  | number (astn : Leaf)
  | name (binds : Bool) (astn : Leaf) (fqn : Option String)
  | seq (a b : Node)
  | tname (nm : Node) (typeExpr : Node)
  | atomTrailer (atom : Node) (trailers : Node)
  | dotNameTrailer (nm : Node)
  | argNode (arg : Node) (compForN : Node)
  | globalStmt (names : Node)
  | classDefStmt (nm : Node) (bases : Node) (suite : Node) (scopeBindings : List String)
  | funcDefStmt (nm : Node) (params : Node) (returnType : Node) (suite : Node)
      (scopeBindings : List String)
  | compFor (astn : Leaf) (forExprlist : Node) (inTestlist : Node) (compIter : Node)
      (scopeBindings : List String)
  | dictGenListSetMakerCompFor (valueExpr : Node) (compForN : Node)
  | fileInput (stmts : Node) (scopeBindings : List String)
deriving DecidableEq, Repr

namespace Node

/-- The leaf of a NameNode (ClassDefStmt.name and FuncDefStmt.name are
cast to NameNode by the source, so the default is unreachable). -/
def nameAstn : Node → Leaf
  | name _ astn _ => astn
  | _ => { value := "", lineno := 0, col := 0 }

/-- NameNode.binds of a name field (default unreachable, as above). -/
def nameBinds : Node → Bool
  | name b _ _ => b
  | _ => false

/-- NameNode.fqn of a name field (default unreachable, as above). -/
def nameFqn : Node → Option String
  | name _ _ f => f
  | _ => none

end Node

/-- The fqn_dot pushed by CompForNode.scope_ctx for Python 3:
fqn_dot + "<comp_for>[lineno,column].". -/
def compForFqnDot (fqnDot : String) (astn : Leaf) : String :=
  fqnDot ++ "<comp_for>[" ++ toString astn.lineno ++ "," ++ toString astn.col ++ "]."

/-- The fqn_dot pushed by FuncDefStmt.fqns: for a lambda a unique
segment from the source position, else fqn_dot + name + ".<local>.". -/
def funcFqnDot (fqnDot : String) (astn : Leaf) : String :=
  if astn.value = "lambda" then
    fqnDot ++ "<lambda>[" ++ toString astn.lineno ++ "," ++ toString astn.col ++ "].<local>."
  else
    fqnDot ++ astn.value ++ ".<local>."

/-- The frame ClassDefStmt.fqns pushes: name -> class_fqn + "." + name
for every name in the class's scope_bindings. -/
def classSeedFrame (classFqn : String) (scopeBindings : List String) : Frame :=
  scopeBindings.map fun n => (n, classFqn ++ "." ++ n)

/-- The frame FuncDefStmt.fqns pushes: name -> func_fqn_dot + name for
every name in the function's scope_bindings. -/
def funcSeedFrame (funcDot : String) (scopeBindings : List String) : Frame :=
  scopeBindings.map fun n => (n, funcDot ++ n)

/-- The frame FileInput.fqns pushes: name -> fqn_dot + name for every
name in the module's scope_bindings. -/
def fileSeedFrame (fqnDot : String) (scopeBindings : List String) : Frame :=
  scopeBindings.map fun n => (n, fqnDot ++ n)

/-- CompForNode.scope_ctx (with OmittedNode.scope_ctx as the other
variant the source dispatches to).  For Python 2 the comprehension's
bindings are written into the enclosing scope's innermost frame and
the context is returned unchanged otherwise; for Python 3 a fresh
empty frame and the comp_for fqn_dot are pushed.  The Bool records
whether a frame was pushed, so the caller can drop it afterwards (in
the source the derived context is simply discarded). -/
def scope_ctx : Node → FqnCtx → FqnCtx × Bool
  | Node.compFor astn _ _ _ scopeBindings, ctx =>
      if ctx.pythonVersion = 2 then
        ({ ctx with
             bindings := chainUpdate ctx.bindings
               (scopeBindings.map fun n => (n, ctx.fqnDot ++ n)) },
         false)
      else
        ({ ctx with
             fqnDot := compForFqnDot ctx.fqnDot astn
             bindings := [] :: ctx.bindings },
         true)
  | _, ctx => (ctx, false)

/-- The fqns pass of ast_cooked.py: rewrite the tree with FQNs filled
in, threading the scope-frame chain (the mutable ChainMap state).
Every case mirrors the corresponding fqns method, in the source's
evaluation order. -/
def fqns : Node → FqnCtx → Node × List Frame
  | Node.omitted, ctx => (Node.omitted, ctx.bindings)
  | Node.number astn, ctx => (Node.number astn, ctx.bindings)
  | Node.name binds astn _, ctx =>
      -- NameNode.fqns: reuse a chained binding, else synthesize
      -- fqn_dot + name and write it into the innermost frame.
      let n := astn.value
      (match chainLookup ctx.bindings n with
       | some f => (Node.name binds astn (some f), ctx.bindings)
       | none =>
           let f := ctx.fqnDot ++ n
           (Node.name binds astn (some f), chainInsert ctx.bindings n f))
  | Node.seq a b, ctx =>
      let (a', s1) := fqns a ctx
      let (b', s2) := fqns b { ctx with bindings := s1 }
      (Node.seq a' b', s2)
  | Node.tname nm typeExpr, ctx =>
      let (nm', s1) := fqns nm ctx
      let (te', s2) := fqns typeExpr { ctx with bindings := s1 }
      (Node.tname nm' te', s2)
  | Node.atomTrailer atom trailers, ctx =>
      let (atom', s1) := fqns atom ctx
      let (tr', s2) := fqns trailers { ctx with bindings := s1 }
      (Node.atomTrailer atom' tr', s2)
  | Node.dotNameTrailer nm, ctx =>
      -- DotNameTrailerNode.fqns resolves its NAME like any other name.
      let (nm', s1) := fqns nm ctx
      (Node.dotNameTrailer nm', s1)
  | Node.argNode arg compForN, ctx =>
      -- ArgNode.fqns: comp_for_ctx = comp_for.scope_ctx(ctx), then the
      -- comp_for and then the arg are resolved in comp_for_ctx.
      let (cctx, pushed) := scope_ctx compForN ctx
      let (cf', s1) := fqns compForN cctx
      let (arg', s2) := fqns arg { cctx with bindings := s1 }
      (Node.argNode arg' cf', if pushed then s2.tail else s2)
  | Node.globalStmt names, ctx =>
      -- GlobalStmt.fqns resolves its names with the current context;
      -- there is no special treatment of declared-global names here.
      let (names', s1) := fqns names ctx
      (Node.globalStmt names', s1)
  | Node.classDefStmt nm bases suite scopeBindings, ctx =>
      let classFqn := ctx.fqnDot ++ nm.nameAstn.value
      let (nm', s1) := fqns nm ctx
      let (bases', s2) := fqns bases { ctx with bindings := s1 }
      let (suite', s3) := fqns suite
        { ctx with
            fqnDot := classFqn ++ "."
            bindings := classSeedFrame classFqn scopeBindings :: s2 }
      (Node.classDefStmt nm' bases' suite' scopeBindings, s3.tail)
  | Node.funcDefStmt nm params returnType suite scopeBindings, ctx =>
      let funcDot := funcFqnDot ctx.fqnDot nm.nameAstn
      let (nm', s1) := fqns nm ctx
      let (params', sp) := fqns params
        { ctx with fqnDot := funcDot
                   bindings := funcSeedFrame funcDot scopeBindings :: s1 }
      let (rt', s3) := fqns returnType { ctx with bindings := sp.tail }
      let (suite', ss) := fqns suite
        { ctx with fqnDot := funcDot
                   bindings := sp.headD [] :: s3 }
      (Node.funcDefStmt nm' params' rt' suite' scopeBindings, ss.tail)
  | Node.compFor astn forExprlist inTestlist compIter scopeBindings, ctx =>
      -- CompForNode.fqns, called with the context scope_ctx produced:
      -- the in_testlist first, then the comprehension's bindings are
      -- written into the innermost frame, then the for targets and
      -- the rest of the clauses.
      let (inT', s1) := fqns inTestlist ctx
      let s2 := chainUpdate s1 (scopeBindings.map fun n => (n, ctx.fqnDot ++ n))
      let (forE', s3) := fqns forExprlist { ctx with bindings := s2 }
      let (ci', s4) := fqns compIter { ctx with bindings := s3 }
      (Node.compFor astn forE' inT' ci' scopeBindings, s4)
  | Node.dictGenListSetMakerCompFor valueExpr compForN, ctx =>
      let (cctx, pushed) := scope_ctx compForN ctx
      let (cf', s1) := fqns compForN cctx
      let (ve', s2) := fqns valueExpr { cctx with bindings := s1 }
      (Node.dictGenListSetMakerCompFor ve' cf', if pushed then s2.tail else s2)
  | Node.fileInput stmts scopeBindings, ctx =>
      let (stmts', s1) := fqns stmts
        { ctx with bindings := fileSeedFrame ctx.fqnDot scopeBindings :: ctx.bindings }
      (Node.fileInput stmts' scopeBindings, s1.tail)

/-! ## Anchors (the kythe.Anchor records and the anchors methods) -/

/-- Modelled from the spec: the kythe module is not among the sources;
per the spec an Anchor is an immutable record of a span and an FQN
with a kind tag BindingDef / Reference / ClassDef / FunctionDef (the
anchors methods construct kythe.BindingAnchor, kythe.RefAnchor,
kythe.ClassDefAnchor and kythe.FuncDefAnchor from an astn and an
fqn). -/
inductive Anchor where
  | bindingDef (astn : Leaf) (fqn : String)
  | ref (astn : Leaf) (fqn : String)
  | classDefA (astn : Leaf) (fqn : String)
  | funcDefA (astn : Leaf) (fqn : String)
deriving DecidableEq, Repr

/-- Python truthiness of the Optional[Text] fqn field: None and the
empty string are falsy. -/
def truthy : Option String → Bool
  | none => false
  | some s => !(s = "")

/-- The anchors pass: a failed assert statement (assert self.fqn on a
binding name, assert self.name.binds / self.name.fqn on a class or
function definition) is an exception, modelled as none. -/
def anchors : Node → Option (List Anchor)
  | Node.omitted => some []
  | Node.number _ => some []
  | Node.name binds astn fqn =>
      if binds then
        -- BindingAnchor, after assert self.fqn
        match fqn with
        | some f => if f = "" then none else some [Anchor.bindingDef astn f]
        | none => none
      else
        -- RefAnchor only when the fqn was filled in and non-empty
        match fqn with
        | some f => if f = "" then some [] else some [Anchor.ref astn f]
        | none => some []
  | Node.seq a b => do
      let xs ← anchors a
      let ys ← anchors b
      pure (xs ++ ys)
  | Node.tname nm typeExpr => do
      let xs ← anchors nm
      let ys ← anchors typeExpr
      pure (xs ++ ys)
  | Node.atomTrailer atom trailers => do
      let xs ← anchors atom
      let ys ← anchors trailers
      pure (xs ++ ys)
  | Node.dotNameTrailer nm => anchors nm
  | Node.argNode arg compForN => do
      let xs ← anchors arg
      let ys ← anchors compForN
      pure (xs ++ ys)
  | Node.globalStmt names => anchors names
  | Node.classDefStmt nm bases suite _ =>
      -- assert self.name.binds; assert self.name.fqn; then the
      -- ClassDefAnchor, the bases and the suite -- the name's own
      -- anchors are not yielded.
      if nm.nameBinds && truthy nm.nameFqn then do
        let bs ← anchors bases
        let ss ← anchors suite
        pure (Anchor.classDefA nm.nameAstn ((nm.nameFqn).getD "") :: (bs ++ ss))
      else none
  | Node.funcDefStmt nm params returnType suite _ =>
      if nm.nameBinds && truthy nm.nameFqn then do
        let ps ← anchors params
        let rs ← anchors returnType
        let ss ← anchors suite
        pure (Anchor.funcDefA nm.nameAstn ((nm.nameFqn).getD "") :: (ps ++ rs ++ ss))
      else none
  | Node.compFor _ forExprlist inTestlist compIter _ => do
      let fs ← anchors forExprlist
      let ts ← anchors inTestlist
      let cs ← anchors compIter
      pure (fs ++ ts ++ cs)
  | Node.dictGenListSetMakerCompFor valueExpr compForN => do
      let vs ← anchors valueExpr
      let cs ← anchors compForN
      pure (vs ++ cs)
  | Node.fileInput stmts _ => anchors stmts

/-! ## The cooker side (ast_raw.py): name classification and the
global/nonlocal declared sets. -/

/-- NameCtx of ast_raw.py: the ambient classification for a NAME. -/
inductive NameCtx where
  | bindingC
  | refC
  | rawC
deriving DecidableEq, Repr

/-- The parts of ast_raw.Ctx that cvt_token_name and cvt_global_stmt
read or write: the classification mode and the three per-scope
ordered-set accumulators (OrderedDicts with the value ignored,
modelled as insertion-ordered lists). -/
structure RawCtx where
  nameCtx : NameCtx
  scopeBindings : List String
  globalVars : List String
  nonlocalVars : List String
deriving DecidableEq, Repr

/-- OrderedDict write d[k] = None: a key already present keeps its
position (the write is a no-op on the key sequence); a new key is
appended. -/
def ordInsert (s : List String) (n : String) : List String :=
  if n ∈ s then s else s ++ [n]

/-- The cooked name variants cvt_token_name constructs:
NameBindsNode, NameRefNode, NameRawNode. -/
inductive RawName where
  | nameBindsNode (astn : Leaf)
  | nameRefNode (astn : Leaf)
  | nameRawNode (astn : Leaf)
deriving DecidableEq, Repr

/-- ast_raw.cvt_token_name: in a BINDING context a name that is in
neither the declared-global nor the declared-nonlocal set is
registered into scope_bindings and becomes a NameBindsNode; a declared
name degrades to NameRefNode without touching scope_bindings. REF and
RAW contexts never register.  Returns the node and the updated
scope_bindings. -/
def cvt_token_name (ctx : RawCtx) (node : Leaf) : RawName × List String :=
  match ctx.nameCtx with
  | NameCtx.bindingC =>
      if node.value ∉ ctx.globalVars ∧ node.value ∉ ctx.nonlocalVars then
        (RawName.nameBindsNode node, ordInsert ctx.scopeBindings node.value)
      else
        (RawName.nameRefNode node, ctx.scopeBindings)
  | NameCtx.refC => (RawName.nameRefNode node, ctx.scopeBindings)
  | NameCtx.rawC => (RawName.nameRawNode node, ctx.scopeBindings)

/-- ast_raw.cvt_global_stmt: a global statement adds its names to the
current scope's global_vars, a nonlocal statement to nonlocal_vars
(ctx.global_vars.update / ctx.nonlocal_vars.update); the names
themselves are cooked as NameRefNodes in REF context and
scope_bindings is untouched. -/
def cvt_global_stmt (isGlobal : Bool) (names : List String) (ctx : RawCtx) : RawCtx :=
  if isGlobal then
    { ctx with globalVars := names.foldl ordInsert ctx.globalVars }
  else
    { ctx with nonlocalVars := names.foldl ordInsert ctx.nonlocalVars }

/-! ## Observation helpers -/

/-- The leaf an anchor points at. -/
def anchorLeaf : Anchor → Leaf
  | Anchor.bindingDef astn _ => astn
  | Anchor.ref astn _ => astn
  | Anchor.classDefA astn _ => astn
  | Anchor.funcDefA astn _ => astn

/-- The FQN an anchor carries. -/
def anchorFqn : Anchor → String
  | Anchor.bindingDef _ f => f
  | Anchor.ref _ f => f
  | Anchor.classDefA _ f => f
  | Anchor.funcDefA _ f => f

/-- The FQN attached to the (first) anchor at a given leaf after
resolving a tree: cook result -> fqns -> anchors -> select. -/
def fqnAt (t : Node) (ctx : FqnCtx) (astn : Leaf) : Option String :=
  (anchors (fqns t ctx).1).bind fun l =>
    (l.find? fun a => anchorLeaf a = astn).map anchorFqn

/-- Whether an anchor is a BindingDef anchor at the given leaf. -/
def isBindingDefAt (astn : Leaf) : Anchor → Bool
  | Anchor.bindingDef a _ => a = astn
  | _ => false

/-- All name-node leaves of a tree, in traversal order (these are the
only leaves the anchors pass can point at). -/
def nameLeaves : Node → List Leaf
  | Node.omitted => []
  | Node.number _ => []
  | Node.name _ astn _ => [astn]
  | Node.seq a b => nameLeaves a ++ nameLeaves b
  | Node.tname nm typeExpr => nameLeaves nm ++ nameLeaves typeExpr
  | Node.atomTrailer atom trailers => nameLeaves atom ++ nameLeaves trailers
  | Node.dotNameTrailer nm => nameLeaves nm
  | Node.argNode arg compForN => nameLeaves arg ++ nameLeaves compForN
  | Node.globalStmt names => nameLeaves names
  | Node.classDefStmt nm bases suite _ =>
      nameLeaves nm ++ nameLeaves bases ++ nameLeaves suite
  | Node.funcDefStmt nm params returnType suite _ =>
      nameLeaves nm ++ nameLeaves params ++ nameLeaves returnType ++ nameLeaves suite
  | Node.compFor _ forExprlist inTestlist compIter _ =>
      nameLeaves forExprlist ++ nameLeaves inTestlist ++ nameLeaves compIter
  | Node.dictGenListSetMakerCompFor valueExpr compForN =>
      nameLeaves valueExpr ++ nameLeaves compForN
  | Node.fileInput stmts _ => nameLeaves stmts

/-! ## Concrete scenario inputs

The cooked trees below are the ast_raw output for the spec's scenario
programs (name classification per cvt_token_name, scope_bindings per
the per-scope Ctx accumulators), written down as explicit Node
values. -/

/-- Scenario A source, module pkg.mod:
line 1: class Foo:
line 2:   def bar(self):
line 3:     return self.x -/
def fooLeaf : Leaf := { value := "Foo", lineno := 1, col := 6 }

def barLeaf : Leaf := { value := "bar", lineno := 2, col := 6 }

def selfParamLeaf : Leaf := { value := "self", lineno := 2, col := 10 }

def selfRefLeaf : Leaf := { value := "self", lineno := 3, col := 11 }

def xTrailerLeaf : Leaf := { value := "x", lineno := 3, col := 16 }

/-- Scenario A cooked tree: FileInput [ClassDefStmt Foo [FuncDefStmt
bar [param self] (return self.x)]]; the class registers Foo at module
scope, bar at class scope, self at function scope; the name after the
dot is a non-binding NAME inside a DotNameTrailerNode. -/
def scenarioA : Node :=
  Node.fileInput
    (Node.classDefStmt (Node.name true fooLeaf none) Node.omitted
      (Node.funcDefStmt (Node.name true barLeaf none)
        (Node.tname (Node.name true selfParamLeaf none) Node.omitted)
        Node.omitted
        (Node.atomTrailer (Node.name false selfRefLeaf none)
          (Node.dotNameTrailer (Node.name false xTrailerLeaf none)))
        ["self"])
      ["bar"])
    ["Foo"]

/-- Initial context for scenario A (module pkg.mod, Python 3; the
initial chain is the single empty dict __main__ supplies). -/
def ctxA : FqnCtx :=
  { fqnDot := "pkg.mod.", bindings := [[]], pythonVersion := 3 }

/-- Scenario B source, module m, Python 3 (isolating dialect):
line 1: [x for x in range(x)]           with x otherwise unbound. -/
def xValueLeaf : Leaf := { value := "x", lineno := 1, col := 1 }

def forLeaf : Leaf := { value := "for", lineno := 1, col := 3 }

def xTargetLeaf : Leaf := { value := "x", lineno := 1, col := 7 }

def rangeLeaf : Leaf := { value := "range", lineno := 1, col := 12 }

def xIterLeaf : Leaf := { value := "x", lineno := 1, col := 18 }

/-- Scenario B cooked tree: the comprehension's scope_bindings hold x
(isolating dialect); range(x) is an AtomTrailerNode whose call trailer
holds one ArgNode. -/
def scenarioB : Node :=
  Node.fileInput
    (Node.dictGenListSetMakerCompFor (Node.name false xValueLeaf none)
      (Node.compFor forLeaf (Node.name true xTargetLeaf none)
        (Node.atomTrailer (Node.name false rangeLeaf none)
          (Node.argNode (Node.name false xIterLeaf none) Node.omitted))
        Node.omitted ["x"]))
    []

/-- Initial context for scenarios at module m, Python 3. -/
def ctxM : FqnCtx :=
  { fqnDot := "m.", bindings := [[]], pythonVersion := 3 }

/-- Same as ctxM but with the legacy (Python 2) dialect. -/
def ctxM2 : FqnCtx :=
  { fqnDot := "m.", bindings := [[]], pythonVersion := 2 }

/-- Scenario B with x bound in the enclosing scope, module m:
line 1: x = 0
line 2: [x for x in range(x)] -/
def xModLeaf : Leaf := { value := "x", lineno := 1, col := 0 }

def xValue2Leaf : Leaf := { value := "x", lineno := 2, col := 1 }

def for2Leaf : Leaf := { value := "for", lineno := 2, col := 3 }

def xTarget2Leaf : Leaf := { value := "x", lineno := 2, col := 7 }

def range2Leaf : Leaf := { value := "range", lineno := 2, col := 12 }

def xIter2Leaf : Leaf := { value := "x", lineno := 2, col := 18 }

def oneLit : Leaf := { value := "0", lineno := 1, col := 4 }

/-- Scenario B variant cooked tree: module scope binds x (line 1), so
the module's scope_bindings hold x. -/
def scenarioBBound : Node :=
  Node.fileInput
    (Node.seq (Node.seq (Node.name true xModLeaf none) (Node.number oneLit))
      (Node.dictGenListSetMakerCompFor (Node.name false xValue2Leaf none)
        (Node.compFor for2Leaf (Node.name true xTarget2Leaf none)
          (Node.atomTrailer (Node.name false range2Leaf none)
            (Node.argNode (Node.name false xIter2Leaf none) Node.omitted))
          Node.omitted ["x"])))
    ["x"]

/-- Scenario D source, module m:
line 1: def f():
line 2:   global g
line 3:   g = 1

cvt_global_stmt puts g into the function scope's global_vars, so
cvt_token_name classifies the g of g = 1 as a NameRefNode (binds =
false) and registers nothing; f's scope_bindings are empty. -/
def fLeaf : Leaf := { value := "f", lineno := 1, col := 4 }

def gGlobalLeaf : Leaf := { value := "g", lineno := 2, col := 9 }

def gAssignLeaf : Leaf := { value := "g", lineno := 3, col := 2 }

def oneDLit : Leaf := { value := "1", lineno := 3, col := 6 }

def scenarioD : Node :=
  Node.fileInput
    (Node.funcDefStmt (Node.name true fLeaf none) Node.omitted Node.omitted
      (Node.seq (Node.globalStmt (Node.name false gGlobalLeaf none))
        (Node.seq (Node.name false gAssignLeaf none) (Node.number oneDLit)))
      [])
    ["f"]

/-- Input for claim C2, module m:
line 1: y = 0
line 2: def f():
line 3:   z = y
line 4:   y = 2

f's scope_bindings are [z, y] (the reference to y on line 3 does not
register; the bindings on lines 3 and 4 do). -/
def yModLeaf : Leaf := { value := "y", lineno := 1, col := 0 }

def zeroLit : Leaf := { value := "0", lineno := 1, col := 4 }

def fC2Leaf : Leaf := { value := "f", lineno := 2, col := 4 }

def zLeaf : Leaf := { value := "z", lineno := 3, col := 2 }

def yRefLeaf : Leaf := { value := "y", lineno := 3, col := 6 }

def yFuncLeaf : Leaf := { value := "y", lineno := 4, col := 2 }

def twoLit : Leaf := { value := "2", lineno := 4, col := 6 }

def scenarioC2 : Node :=
  Node.fileInput
    (Node.seq (Node.seq (Node.name true yModLeaf none) (Node.number zeroLit))
      (Node.funcDefStmt (Node.name true fC2Leaf none) Node.omitted Node.omitted
        (Node.seq (Node.seq (Node.name true zLeaf none) (Node.name false yRefLeaf none))
          (Node.seq (Node.name true yFuncLeaf none) (Node.number twoLit)))
        ["z", "y"]))
    ["y", "f"]

/-- The leaf a cooked name variant carries (cvt_token_name stores the
input leaf in every variant unchanged). -/
def rawNameLeaf : RawName → Leaf
  | RawName.nameBindsNode astn => astn
  | RawName.nameRefNode astn => astn
  | RawName.nameRawNode astn => astn

/-- ast_raw.new_ctx: the fresh per-scope accumulators. -/
def newRawCtx : RawCtx :=
  { nameCtx := NameCtx.refC, scopeBindings := [], globalVars := [], nonlocalVars := [] }

/-- Decoded content for claim C9: a two-byte character, a newline and
an ASCII token, i.e. the decoding of the UTF-8 bytes
0xC3 0xA9 0x0A 0x78. -/
def c9Content : List Char := ['é', '\n', 'x']

/-- A concrete File for span-width witnesses. -/
def fileW : File := { lineOffsets := [(1, 0), (2, 9), (3, 24)] }

/-- The range astn_to_range produces for scenario A's Foo under
fileW. -/
def rangeW : Astn := { value := "Foo", start := 6, stop := 9 }

/-! ## Supporting lemmas on frames and ordered sets -/

/-- Looking up an inserted key finds the inserted value (dict write
then read). -/
theorem frameLookup_frameInsert_self (f : Frame) (n v : String) :
    frameLookup (frameInsert f n v) n = some v := by
  induction f with
  | nil => simp [frameInsert, frameLookup]
  | cons p rest ih =>
      obtain ⟨k, w⟩ := p
      by_cases hk : k = n <;> simp [frameInsert, frameLookup, hk, ih]

/-- A key present in a seeded frame maps to its seeded value (seed
frames never repeat a key with a different value, so the first hit is
the seeded one). -/
theorem frameLookup_map_self (g : String → String) (sb : List String) (n : String)
    (h : n ∈ sb) : frameLookup (sb.map fun m => (m, g m)) n = some (g n) := by
  induction sb with
  | nil => cases h
  | cons m rest ih =>
      by_cases hm : m = n
      · subst hm
        simp [frameLookup]
      · have hn : n ∈ rest := by
          rcases List.mem_cons.mp h with h1 | h1
          · exact absurd h1.symm hm
          · exact h1
        simp [frameLookup, hm, ih hn]

/-- A hit in the innermost frame decides the chain lookup. -/
theorem chainLookup_cons_some {f : Frame} {n v : String} (rest : List Frame)
    (h : frameLookup f n = some v) : chainLookup (f :: rest) n = some v := by
  simp [chainLookup, h]

/-- A miss in the innermost frame defers to the outer frames. -/
theorem chainLookup_cons_none {f : Frame} {n : String} (rest : List Frame)
    (h : frameLookup f n = none) : chainLookup (f :: rest) n = chainLookup rest n := by
  simp [chainLookup, h]

/-- A chain write is observed by a subsequent chain read. -/
theorem chainLookup_chainInsert_self (σ : List Frame) (n v : String) :
    chainLookup (chainInsert σ n v) n = some v := by
  cases σ with
  | nil => simp [chainInsert, chainLookup, frameLookup]
  | cons f rest => simp [chainInsert, chainLookup, frameLookup_frameInsert_self]

/-- Membership in an ordered-set insert. -/
theorem mem_ordInsert (s : List String) (m x : String) :
    x ∈ ordInsert s m ↔ x ∈ s ∨ x = m := by
  unfold ordInsert
  by_cases h : m ∈ s
  · simp only [if_pos h]
    constructor
    · exact Or.inl
    · rintro (hx | rfl)
      · exact hx
      · exact h
  · simp [if_neg h]

/-- Folding ordered-set inserts keeps old members and adds all new
ones. -/
theorem mem_foldl_ordInsert (l : List String) (init : List String) (n : String)
    (h : n ∈ init ∨ n ∈ l) : n ∈ l.foldl ordInsert init := by
  induction l generalizing init with
  | nil =>
      rcases h with h1 | h1
      · exact h1
      · cases h1
  | cons m rest ih =>
      apply ih
      rcases h with h1 | h1
      · exact Or.inl ((mem_ordInsert init m n).mpr (Or.inl h1))
      · rcases List.mem_cons.mp h1 with rfl | h2
        · exact Or.inl ((mem_ordInsert init n n).mpr (Or.inr rfl))
        · exact Or.inr h2

/-- The resolution pass rewrites only the fqn fields: the name leaves
of the resolved tree are exactly those of the input tree, in order. -/
theorem nameLeaves_fqns (t : Node) (ctx : FqnCtx) :
    nameLeaves (fqns t ctx).1 = nameLeaves t := by
  induction t generalizing ctx with
  | omitted => simp [fqns, nameLeaves]
  | number astn => simp [fqns, nameLeaves]
  | name binds astn fqn =>
      cases h : chainLookup ctx.bindings astn.value <;> simp [fqns, nameLeaves, h]
  | seq a b iha ihb => simp [fqns, nameLeaves, iha, ihb]
  | tname nm typeExpr ihn iht => simp [fqns, nameLeaves, ihn, iht]
  | atomTrailer atom trailers iha iht => simp [fqns, nameLeaves, iha, iht]
  | dotNameTrailer nm ihn => simp [fqns, nameLeaves, ihn]
  | argNode arg compForN iha ihc => simp [fqns, nameLeaves, iha, ihc]
  | globalStmt names ihn => simp [fqns, nameLeaves, ihn]
  | classDefStmt nm bases suite sb ihn ihb ihs =>
      simp [fqns, nameLeaves, ihn, ihb, ihs]
  | funcDefStmt nm params returnType suite sb ihn ihp ihr ihs =>
      simp [fqns, nameLeaves, ihn, ihp, ihr, ihs]
  | compFor astn forExprlist inTestlist compIter sb ihf iht ihc =>
      simp [fqns, nameLeaves, ihf, iht, ihc]
  | dictGenListSetMakerCompFor valueExpr compForN ihv ihc =>
      simp [fqns, nameLeaves, ihv, ihc]
  | fileInput stmts sb ihs => simp [fqns, nameLeaves, ihs]

/-- A name field asserted to bind is a name node, so its leaf is among
the node's name leaves. -/
theorem nameBinds_astn_mem (nm : Node) (h : nm.nameBinds = true) :
    nm.nameAstn ∈ nameLeaves nm := by
  cases nm <;> simp_all [Node.nameBinds, Node.nameAstn, nameLeaves]

/-- Every anchor the emitter produces points at one of the tree's name
leaves. -/
theorem anchors_leaves (t : Node) (a : Anchor) (h : a ∈ (anchors t).getD []) :
    anchorLeaf a ∈ nameLeaves t := by
  induction t with
  | omitted => simp [anchors] at h
  | number astn => simp [anchors] at h
  | name binds astn fqn =>
      rcases fqn with _ | f
      · cases binds <;> simp [anchors] at h
      · by_cases hf : f = ""
        · cases binds <;> simp [anchors, hf] at h
        · cases binds <;> simp [anchors, hf] at h <;>
            subst h <;> simp [anchorLeaf, nameLeaves]
  | seq a' b iha ihb =>
      cases h1 : anchors a' <;> cases h2 : anchors b <;>
        simp [anchors, h1, h2, nameLeaves] at h ⊢ <;>
        rcases h with h | h
      · exact Or.inl (iha (by simp [h1, h]))
      · exact Or.inr (ihb (by simp [h2, h]))
  | tname nm typeExpr ihn iht =>
      cases h1 : anchors nm <;> cases h2 : anchors typeExpr <;>
        simp [anchors, h1, h2, nameLeaves] at h ⊢ <;>
        rcases h with h | h
      · exact Or.inl (ihn (by simp [h1, h]))
      · exact Or.inr (iht (by simp [h2, h]))
  | atomTrailer atom trailers iha iht =>
      cases h1 : anchors atom <;> cases h2 : anchors trailers <;>
        simp [anchors, h1, h2, nameLeaves] at h ⊢ <;>
        rcases h with h | h
      · exact Or.inl (iha (by simp [h1, h]))
      · exact Or.inr (iht (by simp [h2, h]))
  | dotNameTrailer nm ihn =>
      simp only [anchors] at h
      exact ihn h
  | argNode arg compForN iha ihc =>
      cases h1 : anchors arg <;> cases h2 : anchors compForN <;>
        simp [anchors, h1, h2, nameLeaves] at h ⊢ <;>
        rcases h with h | h
      · exact Or.inl (iha (by simp [h1, h]))
      · exact Or.inr (ihc (by simp [h2, h]))
  | globalStmt names ihn =>
      simp only [anchors] at h
      exact ihn h
  | classDefStmt nm bases suite sb ihn ihb ihs =>
      by_cases hc : nm.nameBinds && truthy nm.nameFqn
      · have hb : nm.nameBinds = true := by
          cases hb2 : nm.nameBinds
          · simp [hb2] at hc
          · rfl
        cases h1 : anchors bases <;> cases h2 : anchors suite <;>
          simp [anchors, hc, h1, h2, nameLeaves] at h ⊢ <;>
          rcases h with h | h | h
        · subst h
          exact Or.inl (by simpa [anchorLeaf] using nameBinds_astn_mem nm hb)
        · exact Or.inr (Or.inl (ihb (by simp [h1, h])))
        · exact Or.inr (Or.inr (ihs (by simp [h2, h])))
      · simp [anchors, hc] at h
  | funcDefStmt nm params returnType suite sb ihn ihp ihr ihs =>
      by_cases hc : nm.nameBinds && truthy nm.nameFqn
      · have hb : nm.nameBinds = true := by
          cases hb2 : nm.nameBinds
          · simp [hb2] at hc
          · rfl
        cases h1 : anchors params <;> cases h2 : anchors returnType <;>
          cases h3 : anchors suite <;>
          simp [anchors, hc, h1, h2, h3, nameLeaves] at h ⊢ <;>
          rcases h with h | h | h | h
        · subst h
          exact Or.inl (by simpa [anchorLeaf] using nameBinds_astn_mem nm hb)
        · exact Or.inr (Or.inl (ihp (by simp [h1, h])))
        · exact Or.inr (Or.inr (Or.inl (ihr (by simp [h2, h]))))
        · exact Or.inr (Or.inr (Or.inr (ihs (by simp [h3, h]))))
      · simp [anchors, hc] at h
  | compFor astn forExprlist inTestlist compIter sb ihf iht ihc =>
      cases h1 : anchors forExprlist <;> cases h2 : anchors inTestlist <;>
        cases h3 : anchors compIter <;>
        simp [anchors, h1, h2, h3, nameLeaves] at h ⊢ <;>
        rcases h with h | h | h
      · exact Or.inl (ihf (by simp [h1, h]))
      · exact Or.inr (Or.inl (iht (by simp [h2, h])))
      · exact Or.inr (Or.inr (ihc (by simp [h3, h])))
  | dictGenListSetMakerCompFor valueExpr compForN ihv ihc =>
      cases h1 : anchors valueExpr <;> cases h2 : anchors compForN <;>
        simp [anchors, h1, h2, nameLeaves] at h ⊢ <;>
        rcases h with h | h
      · exact Or.inl (ihv (by simp [h1, h]))
      · exact Or.inr (ihc (by simp [h2, h]))
  | fileInput stmts sb ihs =>
      simp only [anchors] at h
      exact ihs h

/-! ## Claim theorems -/

/-- C3: a bare name occurrence searches the frame chain innermost to
outermost; a hit is reused (no new identity on rebinding) and the
chain is untouched; a miss synthesizes currentPrefix + name, writes it
into the innermost frame, and every subsequent occurrence in the same
scope, or in a nested scope that does not shadow the name, observes
that same FQN. -/
theorem c3_name_lookup_insertion (b : Bool) (astn : Leaf) (fqn0 : Option String)
    (ctx : FqnCtx) :
    (∀ f, chainLookup ctx.bindings astn.value = some f →
        fqns (Node.name b astn fqn0) ctx = (Node.name b astn (some f), ctx.bindings)) ∧
    (∀ (fr : Frame) (rest : List Frame) (v : String), frameLookup fr astn.value = some v →
        chainLookup (fr :: rest) astn.value = some v) ∧
    (chainLookup ctx.bindings astn.value = none →
        fqns (Node.name b astn fqn0) ctx =
          (Node.name b astn (some (ctx.fqnDot ++ astn.value)),
            chainInsert ctx.bindings astn.value (ctx.fqnDot ++ astn.value)) ∧
        chainLookup (chainInsert ctx.bindings astn.value (ctx.fqnDot ++ astn.value))
            astn.value = some (ctx.fqnDot ++ astn.value) ∧
        ∀ fr : Frame, frameLookup fr astn.value = none →
          chainLookup (fr :: chainInsert ctx.bindings astn.value (ctx.fqnDot ++ astn.value))
              astn.value = some (ctx.fqnDot ++ astn.value)) := by
  refine ⟨fun f hf => ?_, fun fr rest v hv => chainLookup_cons_some rest hv, fun hn => ?_⟩
  · simp [fqns, hf]
  · refine ⟨by simp [fqns, hn], chainLookup_chainInsert_self _ _ _, fun fr hfr => ?_⟩
    rw [chainLookup_cons_none _ hfr]
    exact chainLookup_chainInsert_self _ _ _

/-- C3 witness: concrete instances of all three branches. -/
theorem c3_name_lookup_insertion_witness :
    fqns (Node.name false { value := "a", lineno := 1, col := 0 } none)
        { fqnDot := "m.", bindings := [[("a", "outer.a")]], pythonVersion := 3 }
      = (Node.name false { value := "a", lineno := 1, col := 0 } (some "outer.a"),
          [[("a", "outer.a")]]) ∧
    chainLookup [[("a", "inner.a")], [("a", "outer.a")]] "a" = some "inner.a" ∧
    fqns (Node.name false { value := "b", lineno := 1, col := 0 } none)
        { fqnDot := "m.", bindings := [[]], pythonVersion := 3 }
      = (Node.name false { value := "b", lineno := 1, col := 0 } (some "m.b"),
          [[("b", "m.b")]]) ∧
    chainLookup [[("b", "m.b")]] "b" = some "m.b" ∧
    chainLookup [[], [("b", "m.b")]] "b" = some "m.b" := by
  have h1 := (c3_name_lookup_insertion false { value := "a", lineno := 1, col := 0 } none
      { fqnDot := "m.", bindings := [[("a", "outer.a")]], pythonVersion := 3 }).1
      "outer.a" (by decide)
  have h2 := (c3_name_lookup_insertion false { value := "a", lineno := 1, col := 0 } none
      { fqnDot := "m.", bindings := [[("a", "outer.a")]], pythonVersion := 3 }).2.1
      [("a", "inner.a")] [[("a", "outer.a")]] "inner.a" (by decide)
  have h3 := (c3_name_lookup_insertion false { value := "b", lineno := 1, col := 0 } none
      { fqnDot := "m.", bindings := [[]], pythonVersion := 3 }).2.2 (by decide)
  exact ⟨h1, h2, h3.1, h3.2.1, h3.2.2 [] (by decide)⟩

/-- C5: the emitter yields a BindingDef anchor for a Binding-classified
occurrence (whose resolved FQN is non-empty), a Reference anchor for a
Reference-classified occurrence with a non-empty FQN, and nothing --
without failing -- for a Reference-classified occurrence with an empty
FQN, while the rest of the tree is still processed. -/
theorem c5_emitter_cases :
    (∀ (astn : Leaf) (f : String), f ≠ "" →
        anchors (Node.name true astn (some f)) = some [Anchor.bindingDef astn f]) ∧
    (∀ (astn : Leaf) (f : String), f ≠ "" →
        anchors (Node.name false astn (some f)) = some [Anchor.ref astn f]) ∧
    (∀ astn : Leaf, anchors (Node.name false astn none) = some []) ∧
    (∀ astn : Leaf, anchors (Node.name false astn (some "")) = some []) ∧
    (∀ (astn : Leaf) (rest : Node) (l : List Anchor), anchors rest = some l →
        anchors (Node.seq (Node.name false astn none) rest) = some l) := by
  refine ⟨fun astn f hf => ?_, fun astn f hf => ?_, fun astn => ?_, fun astn => ?_,
    fun astn rest l hl => ?_⟩
  · simp [anchors, hf]
  · simp [anchors, hf]
  · simp [anchors]
  · simp [anchors]
  · simp [anchors, hl]

/-- C5 witness: the three cases at concrete occurrences, and a
degenerate occurrence followed by a live sibling. -/
theorem c5_emitter_cases_witness :
    anchors (Node.name true fooLeaf (some "pkg.mod.Foo"))
      = some [Anchor.bindingDef fooLeaf "pkg.mod.Foo"] ∧
    anchors (Node.name false selfRefLeaf (some "pkg.mod.Foo.bar.<local>.self"))
      = some [Anchor.ref selfRefLeaf "pkg.mod.Foo.bar.<local>.self"] ∧
    anchors (Node.name false xTrailerLeaf none) = some [] ∧
    anchors (Node.seq (Node.name false xTrailerLeaf none)
        (Node.name false selfRefLeaf (some "pkg.mod.Foo.bar.<local>.self")))
      = some [Anchor.ref selfRefLeaf "pkg.mod.Foo.bar.<local>.self"] := by
  refine ⟨c5_emitter_cases.1 fooLeaf "pkg.mod.Foo" (by decide),
    c5_emitter_cases.2.1 selfRefLeaf "pkg.mod.Foo.bar.<local>.self" (by decide),
    c5_emitter_cases.2.2.1 xTrailerLeaf,
    c5_emitter_cases.2.2.2.2 xTrailerLeaf _ _
      (c5_emitter_cases.2.1 selfRefLeaf "pkg.mod.Foo.bar.<local>.self" (by decide))⟩

/-- C6: a Binding-classified name checks the declared-global and
declared-nonlocal sets first; a declared name degrades to a reference
with the binding set untouched; otherwise the name is registered (the
first occurrence fixes its position, duplicates are no-ops) and a
binding occurrence is produced.  cvt_global_stmt populates the
declared sets without touching the binding set. -/
theorem c6_binding_registration (ctx : RawCtx) (leaf : Leaf)
    (h : ctx.nameCtx = NameCtx.bindingC) :
    ((leaf.value ∈ ctx.globalVars ∨ leaf.value ∈ ctx.nonlocalVars) →
        cvt_token_name ctx leaf = (RawName.nameRefNode leaf, ctx.scopeBindings)) ∧
    (leaf.value ∉ ctx.globalVars → leaf.value ∉ ctx.nonlocalVars →
        cvt_token_name ctx leaf
          = (RawName.nameBindsNode leaf, ordInsert ctx.scopeBindings leaf.value)) ∧
    (leaf.value ∈ ctx.scopeBindings →
        ordInsert ctx.scopeBindings leaf.value = ctx.scopeBindings) ∧
    (leaf.value ∉ ctx.scopeBindings →
        ordInsert ctx.scopeBindings leaf.value = ctx.scopeBindings ++ [leaf.value]) ∧
    (∀ names, (cvt_global_stmt true names ctx).scopeBindings = ctx.scopeBindings ∧
        (cvt_global_stmt false names ctx).scopeBindings = ctx.scopeBindings) ∧
    (∀ (n : String) (names : List String), n ∈ names →
        n ∈ (cvt_global_stmt true names ctx).globalVars ∧
        n ∈ (cvt_global_stmt false names ctx).nonlocalVars) := by
  refine ⟨fun hd => ?_, fun hg hn => ?_, fun hs => ?_, fun hs => ?_,
    fun names => ⟨?_, ?_⟩, fun n names hn => ⟨?_, ?_⟩⟩
  · rcases hd with hd | hd <;>
      simp [cvt_token_name, h, hd]
  · simp [cvt_token_name, h, hg, hn]
  · simp [ordInsert, hs]
  · simp [ordInsert, hs]
  · simp [cvt_global_stmt]
  · simp [cvt_global_stmt]
  · simpa [cvt_global_stmt] using mem_foldl_ordInsert names ctx.globalVars n (Or.inr hn)
  · simpa [cvt_global_stmt] using mem_foldl_ordInsert names ctx.nonlocalVars n (Or.inr hn)

/-- C6 witness: in a scope where g was declared global, a binding
occurrence of g degrades to a reference and registers nothing, while a
binding occurrence of h is registered. -/
theorem c6_binding_registration_witness :
    cvt_token_name
        { nameCtx := NameCtx.bindingC, scopeBindings := [], globalVars := ["g"],
          nonlocalVars := [] } gAssignLeaf
      = (RawName.nameRefNode gAssignLeaf, []) ∧
    cvt_token_name
        { nameCtx := NameCtx.bindingC, scopeBindings := ["q"], globalVars := ["g"],
          nonlocalVars := [] } { value := "h", lineno := 3, col := 0 }
      = (RawName.nameBindsNode { value := "h", lineno := 3, col := 0 }, ["q", "h"]) ∧
    ordInsert ["q", "h"] "h" = ["q", "h"] := by
  refine ⟨(c6_binding_registration
      { nameCtx := NameCtx.bindingC, scopeBindings := [], globalVars := ["g"],
        nonlocalVars := [] } gAssignLeaf rfl).1 (Or.inl (by decide)), ?_, ?_⟩
  · have h2 := (c6_binding_registration
        { nameCtx := NameCtx.bindingC, scopeBindings := ["q"], globalVars := ["g"],
          nonlocalVars := [] } { value := "h", lineno := 3, col := 0 } rfl).2.1
        (by decide) (by decide)
    simpa [ordInsert] using h2
  · exact (c6_binding_registration
        { nameCtx := NameCtx.bindingC, scopeBindings := ["q", "h"], globalVars := [],
          nonlocalVars := [] } { value := "h", lineno := 3, col := 0 } rfl).2.2.1
        (by decide)

/-- C1 counterexample: for [x for x in range(x)] at module scope (m,
isolating dialect) with x otherwise unbound, the x inside range(x),
the for x target and the yielded x all receive the same
comprehension-scoped FQN; in particular the x inside range(x) does not
receive the module-scope FQN m.x and the two FQNs the claim asserts to
differ are equal. -/
theorem c1_counterexample :
    fqnAt scenarioB ctxM xIterLeaf = some "m.<comp_for>[1,3].x" ∧
    fqnAt scenarioB ctxM xTargetLeaf = some "m.<comp_for>[1,3].x" ∧
    fqnAt scenarioB ctxM xValueLeaf = some "m.<comp_for>[1,3].x" ∧
    fqnAt scenarioB ctxM xIterLeaf = fqnAt scenarioB ctxM xTargetLeaf ∧
    fqnAt scenarioB ctxM xIterLeaf ≠ some "m.x" := by
  exact ⟨rfl, rfl, rfl, rfl, by decide⟩

/-- C1 amended: the iterable of the outermost for clause is resolved
before the comprehension's bindings are installed in its frame, so a
name bound in the enclosing scope resolves there (and then differs
from the comprehension-scoped loop target); but the comprehension's
frame and fqn dot-prefix are already in effect, so an otherwise
unbound name in the iterable is synthesized with the comprehension's
own dot-prefix and written into the comprehension's frame -- for
[x for x in range(x)] with x otherwise unbound, all three x receive
the same comprehension-scoped FQN. -/
theorem c1_amended_iterable_resolution :
    fqnAt scenarioB ctxM xIterLeaf = some "m.<comp_for>[1,3].x" ∧
    fqnAt scenarioB ctxM xTargetLeaf = some "m.<comp_for>[1,3].x" ∧
    fqnAt scenarioB ctxM xValueLeaf = some "m.<comp_for>[1,3].x" ∧
    fqnAt scenarioBBound ctxM xIter2Leaf = some "m.x" ∧
    fqnAt scenarioBBound ctxM xTarget2Leaf = some "m.<comp_for>[2,3].x" ∧
    fqnAt scenarioBBound ctxM xValue2Leaf = some "m.<comp_for>[2,3].x" ∧
    fqnAt scenarioBBound ctxM xIter2Leaf ≠ fqnAt scenarioBBound ctxM xTarget2Leaf := by
  exact ⟨rfl, rfl, rfl, rfl, rfl, rfl, by decide⟩

/-- C2 counterexample: entering function f (bindings z, y under module
m) pushes a frame pre-populated from its binding set, not an empty
frame: the frame FuncDefStmt.fqns seeds is nonempty, and observably a
reference to y before its local binding resolves to the function-local
FQN instead of the module-scope FQN it would get from an empty frame
with lazy insertion. -/
theorem c2_counterexample :
    funcSeedFrame (funcFqnDot "m." fC2Leaf) ["z", "y"]
      = [("z", "m.f.<local>.z"), ("y", "m.f.<local>.y")] ∧
    funcSeedFrame (funcFqnDot "m." fC2Leaf) ["z", "y"] ≠ [] ∧
    fqnAt scenarioC2 ctxM yRefLeaf = some "m.f.<local>.y" ∧
    fqnAt scenarioC2 ctxM yRefLeaf ≠ some "m.y" := by
  exact ⟨rfl, by decide, rfl, by decide⟩

/-- C2 amended: entering a class pushes a frame pre-populated with
classFQN + "." + name for each recorded binding; entering a function
or lambda pushes a frame pre-populated with funcFqnDot + name for each
recorded binding; only a comprehension scope (isolating dialect)
pushes an empty frame, into which names are then inserted lazily. -/
theorem c2_amended_frame_seeding (ctx : FqnCtx) (nmAstn : Leaf) (sb : List String)
    (n : String) (fe it ci : Node) (hmem : n ∈ sb) (hv : ¬ ctx.pythonVersion = 2) :
    frameLookup (classSeedFrame (ctx.fqnDot ++ nmAstn.value) sb) n
      = some (ctx.fqnDot ++ nmAstn.value ++ "." ++ n) ∧
    frameLookup (funcSeedFrame (funcFqnDot ctx.fqnDot nmAstn) sb) n
      = some (funcFqnDot ctx.fqnDot nmAstn ++ n) ∧
    (scope_ctx (Node.compFor nmAstn fe it ci sb) ctx).1.bindings = [] :: ctx.bindings := by
  refine ⟨?_, ?_, ?_⟩
  · simpa [classSeedFrame, String.append_assoc] using
      frameLookup_map_self (fun m => ctx.fqnDot ++ nmAstn.value ++ "." ++ m) sb n hmem
  · exact frameLookup_map_self (fun m => funcFqnDot ctx.fqnDot nmAstn ++ m) sb n hmem
  · simp [scope_ctx, hv]

/-- C2 amended witness: the seeded frames and the empty comprehension
frame at scenario A's class Foo / method bar and scenario B's
comprehension. -/
theorem c2_amended_frame_seeding_witness :
    frameLookup (classSeedFrame ("pkg.mod." ++ fooLeaf.value) ["bar"]) "bar"
      = some ("pkg.mod." ++ fooLeaf.value ++ "." ++ "bar") ∧
    frameLookup (funcSeedFrame (funcFqnDot "pkg.mod.Foo." barLeaf) ["self"]) "self"
      = some (funcFqnDot "pkg.mod.Foo." barLeaf ++ "self") ∧
    (scope_ctx (Node.compFor forLeaf (Node.name true xTargetLeaf none)
        Node.omitted Node.omitted ["x"]) ctxM).1.bindings = [] :: ctxM.bindings := by
  have h := c2_amended_frame_seeding
      { fqnDot := "pkg.mod.", bindings := [[]], pythonVersion := 3 } fooLeaf ["bar"] "bar"
      Node.omitted Node.omitted Node.omitted (by decide) (by decide)
  have h2 := c2_amended_frame_seeding
      { fqnDot := "pkg.mod.Foo.", bindings := [[]], pythonVersion := 3 } barLeaf ["self"]
      "self" Node.omitted Node.omitted Node.omitted (by decide) (by decide)
  have h3 := c2_amended_frame_seeding ctxM forLeaf ["x"] "x"
      (Node.name true xTargetLeaf none) Node.omitted Node.omitted (by decide) (by decide)
  exact ⟨h.1, h2.2.1, h3.2.2⟩

/-- C4 counterexample: for scenario A the emitter yields the dedicated
ClassDef anchor at Foo and FunctionDef anchor at bar but no BindingDef
anchor at either definition's own name (the claim asserts both are
yielded). -/
theorem c4_counterexample :
    anchors (fqns scenarioA ctxA).1 = some
      [Anchor.classDefA fooLeaf "pkg.mod.Foo",
        Anchor.funcDefA barLeaf "pkg.mod.Foo.bar",
        Anchor.bindingDef selfParamLeaf "pkg.mod.Foo.bar.<local>.self",
        Anchor.ref selfRefLeaf "pkg.mod.Foo.bar.<local>.self",
        Anchor.ref xTrailerLeaf "pkg.mod.Foo.bar.<local>.x"] ∧
    ((anchors (fqns scenarioA ctxA).1).getD []).filter (isBindingDefAt fooLeaf) = [] ∧
    ((anchors (fqns scenarioA ctxA).1).getD []).filter (isBindingDefAt barLeaf) = [] := by
  exact ⟨rfl, rfl, rfl⟩

/-- C4 amended: a class or function definition's own name yields its
dedicated ClassDef (respectively FunctionDef) anchor instead of -- not
in addition to -- the generic BindingDef anchor: the emitted sequence
is exactly the dedicated anchor followed by the anchors of the other
children, with the name's own anchors never invoked. -/
theorem c4_amended_dedicated_anchor_only (nmAstn : Leaf) (f : String)
    (bases suite params rt suite2 : Node) (sb sb2 : List String)
    (lb ls lp lr ls2 : List Anchor) (hf : ¬ f = "")
    (hb : anchors bases = some lb) (hs : anchors suite = some ls)
    (hp : anchors params = some lp) (hr : anchors rt = some lr)
    (hs2 : anchors suite2 = some ls2) :
    anchors (Node.classDefStmt (Node.name true nmAstn (some f)) bases suite sb)
      = some (Anchor.classDefA nmAstn f :: (lb ++ ls)) ∧
    anchors (Node.funcDefStmt (Node.name true nmAstn (some f)) params rt suite2 sb2)
      = some (Anchor.funcDefA nmAstn f :: (lp ++ lr ++ ls2)) := by
  constructor
  · simp [anchors, Node.nameBinds, Node.nameFqn, Node.nameAstn, truthy, hf, hb, hs]
  · simp [anchors, Node.nameBinds, Node.nameFqn, Node.nameAstn, truthy, hf, hp, hr, hs2]

/-- C4 amended witness: scenario A's class Foo and method bar. -/
theorem c4_amended_dedicated_anchor_only_witness :
    anchors (Node.classDefStmt (Node.name true fooLeaf (some "pkg.mod.Foo"))
        Node.omitted Node.omitted ["bar"])
      = some [Anchor.classDefA fooLeaf "pkg.mod.Foo"] ∧
    anchors (Node.funcDefStmt (Node.name true barLeaf (some "pkg.mod.Foo.bar"))
        Node.omitted Node.omitted Node.omitted ["self"])
      = some [Anchor.funcDefA barLeaf "pkg.mod.Foo.bar"] := by
  have h := c4_amended_dedicated_anchor_only fooLeaf "pkg.mod.Foo"
      Node.omitted Node.omitted Node.omitted Node.omitted Node.omitted ["bar"] ["self"]
      [] [] [] [] [] (by decide) rfl rfl rfl rfl rfl
  have h2 := c4_amended_dedicated_anchor_only barLeaf "pkg.mod.Foo.bar"
      Node.omitted Node.omitted Node.omitted Node.omitted Node.omitted ["bar"] ["self"]
      [] [] [] [] [] (by decide) rfl rfl rfl rfl rfl
  exact ⟨h.1, h2.2⟩

/-- C7: contrary to the claim (and to ast_raw.cvt_trailer, which
classifies a trailing NAME as raw), ast_cooked.DotNameTrailerNode.fqns
resolves its trailing name against the frame chain and its anchors
method emits a Reference anchor for it: in scenario A the .x of self.x
gets the synthesized function-local FQN and an anchor. -/
theorem c7_dot_trailer_resolved_and_anchored :
    fqnAt scenarioA ctxA xTrailerLeaf = some "pkg.mod.Foo.bar.<local>.x" ∧
    Anchor.ref xTrailerLeaf "pkg.mod.Foo.bar.<local>.x"
      ∈ (anchors (fqns scenarioA ctxA).1).getD [] ∧
    fqnAt scenarioA ctxA selfRefLeaf = some "pkg.mod.Foo.bar.<local>.self" := by
  exact ⟨rfl, by decide, rfl⟩

/-- C8 counterexample: for def f(): global g; g = 1 under module m,
the pipeline emits no Binding anchor at the g of g = 1 at all (the
cooker degraded it to a reference), and the anchor it does emit
carries the function-local FQN m.f.<local>.g, not the module
dot-prefix + g. -/
theorem c8_counterexample :
    ((anchors (fqns scenarioD ctxM).1).getD []).filter (isBindingDefAt gAssignLeaf)
      = [] ∧
    fqnAt scenarioD ctxM gAssignLeaf = some "m.f.<local>.g" ∧
    fqnAt scenarioD ctxM gAssignLeaf ≠ some "m.g" := by
  exact ⟨rfl, rfl, by decide⟩

/-- C8 amended: after global g, the cooker classifies the g of g = 1
as a reference (NameRefNode) and registers nothing, so the pipeline
emits a Reference anchor -- not a Binding anchor -- for it, and since
g is bound in no frame its FQN is synthesized in the function scope as
m.f.<local>.g rather than carrying the module's dot-prefix. -/
theorem c8_amended_global_degrades_to_ref :
    cvt_token_name
        { cvt_global_stmt true ["g"] newRawCtx with nameCtx := NameCtx.bindingC }
        gAssignLeaf
      = (RawName.nameRefNode gAssignLeaf, []) ∧
    anchors (fqns scenarioD ctxM).1 = some
      [Anchor.funcDefA fLeaf "m.f",
        Anchor.ref gGlobalLeaf "m.f.<local>.g",
        Anchor.ref gAssignLeaf "m.f.<local>.g"] := by
  exact ⟨rfl, rfl⟩

/-- C9: make_file records character offsets of the decoded content,
not byte offsets of the raw byte stream: for the UTF-8 input whose
decoding is c9Content (a two-byte character, a newline, then x), the
exposed span start for the x token on line 2 is 2 while its byte
offset is 3. -/
theorem c9_offsets_are_char_offsets :
    (make_file c9Content).lineOffsets = [(1, 0), (2, 2)] ∧
    (make_file c9Content).astn_to_range { value := "x", lineno := 2, col := 0 }
      = some { value := "x", start := 2, stop := 3 } ∧
    byteOffset c9Content 2 = 3 ∧
    (2 : Nat) ≠ 3 := by
  exact ⟨rfl, rfl, rfl, by decide⟩

/-- C10: every span astn_to_range produces satisfies
stop = start + length of the leaf text; the cooker stores the leaf
unchanged in the name node it produces, and the resolution pass keeps
the tree's name leaves unchanged; hence every emitted anchor points at
a leaf of the cooked tree and its span width equals the length of the
token text it covers. -/
theorem c10_anchor_span_width :
    (∀ (f : File) (leaf : Leaf) (r : Astn), f.astn_to_range leaf = some r →
        r.value = leaf.value ∧ r.stop = r.start + leaf.value.length) ∧
    (∀ (rctx : RawCtx) (leaf : Leaf), rawNameLeaf (cvt_token_name rctx leaf).1 = leaf) ∧
    (∀ (t : Node) (ctx : FqnCtx), nameLeaves (fqns t ctx).1 = nameLeaves t) ∧
    (∀ (t : Node) (ctx : FqnCtx) (a : Anchor),
        a ∈ (anchors (fqns t ctx).1).getD [] →
        anchorLeaf a ∈ nameLeaves t ∧
        ∀ (f : File) (r : Astn), f.astn_to_range (anchorLeaf a) = some r →
          r.stop - r.start = (anchorLeaf a).value.length) := by
  have hrange : ∀ (f : File) (leaf : Leaf) (r : Astn), f.astn_to_range leaf = some r →
      r.value = leaf.value ∧ r.stop = r.start + leaf.value.length := by
    intro f leaf r hr
    unfold File.astn_to_range at hr
    cases hlo : f.lineOffsets.lookup leaf.lineno with
    | none => rw [hlo] at hr; cases hr
    | some lineOff =>
        rw [hlo] at hr
        cases hr
        exact ⟨rfl, rfl⟩
  refine ⟨hrange, ?_, nameLeaves_fqns, fun t ctx a ha => ?_⟩
  · intro rctx leaf
    cases hnc : rctx.nameCtx
    · by_cases hg : leaf.value ∉ rctx.globalVars ∧ leaf.value ∉ rctx.nonlocalVars <;>
        simp [cvt_token_name, hnc, hg, rawNameLeaf]
    · simp [cvt_token_name, hnc, rawNameLeaf]
    · simp [cvt_token_name, hnc, rawNameLeaf]
  · have hmem : anchorLeaf a ∈ nameLeaves t := by
      have := anchors_leaves (fqns t ctx).1 a ha
      rwa [nameLeaves_fqns] at this
    refine ⟨hmem, fun f r hr => ?_⟩
    rcases hrange f (anchorLeaf a) r hr with ⟨_, hw⟩
    omega

/-- C10 witness: the ClassDef anchor at Foo of resolved scenario A,
under a concrete line-offset table. -/
theorem c10_anchor_span_width_witness :
    anchorLeaf (Anchor.classDefA fooLeaf "pkg.mod.Foo") ∈ nameLeaves scenarioA ∧
    rangeW.stop - rangeW.start
      = (anchorLeaf (Anchor.classDefA fooLeaf "pkg.mod.Foo")).value.length ∧
    fileW.astn_to_range fooLeaf = some rangeW := by
  have h := c10_anchor_span_width.2.2.2 scenarioA ctxA
      (Anchor.classDefA fooLeaf "pkg.mod.Foo") (by decide)
  exact ⟨h.1, h.2 fileW rangeW (by decide), by decide⟩

end PyKythe
